import Mathlib

/-!
Verification development for the Droidian image router
(`src/image_router.py`).  The Python module is shallowly embedded:

* Python `dict`s keyed by strings become association lists
  (`List (String × α)`) with insertion-order-preserving update (`dset`)
  and lookup (`dget`), matching CPython semantics for the operations the
  router uses.
* The three compiled regular expressions (`DROIDIAN_ROOTFS`,
  `DROIDIAN_ADAPTATION`, `DROIDIAN_FEATURE`) become token lists for a
  small backtracking matcher (`matchToks`) that reproduces Python
  `re.match` semantics for this restricted regex fragment:
  concatenations of literals, greedy one-or-more character classes, and
  the `.` wildcard, anchored at the start and not at the end, with
  longest-first backtracking (so captured groups agree with `re`).
* `Release.__init__` becomes `releaseInit`, `ImageRouter.create_map`
  becomes `create_map_go`/`create_map` (with the fetch of each
  repository supplied as an oracle `String → FetchOutcome`; a raised
  network exception is `FetchOutcome.exn` and propagates as
  `Except.error`), and `ImageRouter.request_handler` becomes
  `request_handler`.
-/

namespace ImageRouter

/-! ## Python dicts as association lists -/

/-- Python `d[k]` lookup (as an `Option`; a miss is a `KeyError`). -/
def dget {α : Type} : List (String × α) → String → Option α
  | [], _ => none
  | (k', v) :: rest, k => if k' = k then some v else dget rest k

/-- Python `d[k] = v`: overwrite in place if the key exists (keeping its
position), otherwise append at the end (CPython insertion order). -/
def dset {α : Type} : List (String × α) → String → α → List (String × α)
  | [], k, v => [(k, v)]
  | (k', v') :: rest, k, v =>
    if k' = k then (k, v) :: rest else (k', v') :: dset rest k v

/-! ## Character classes used by the three regexes -/

/-- Class `[A-Za-z0-9]`. -/
def isAsciiAlnum (c : Char) : Bool :=
  ('A' ≤ c && c ≤ 'Z') || ('a' ≤ c && c ≤ 'z') || ('0' ≤ c && c ≤ '9')

/-- Class `[a-z0-9]`. -/
def isLowerDigit (c : Char) : Bool :=
  ('a' ≤ c && c ≤ 'z') || ('0' ≤ c && c ≤ '9')

/-- Class `[0-9]`. -/
def isDigitCh (c : Char) : Bool := '0' ≤ c && c ≤ '9'

/-- Class `[a-z0-9A-Z\-\.\_]` (the `model` group of the adaptation
regex). -/
def isModelChar (c : Char) : Bool :=
  isLowerDigit c || ('A' ≤ c && c ≤ 'Z') || c = '-' || c = '.' || c = '_'

/-! ## A tiny backtracking regex matcher

The three patterns of the router only use literal runs, greedy `+` over
a character class (each such run is a capture group) and the `.`
wildcard, so a token list suffices. -/

/-- One regex token. -/
inductive Tok : Type where
  | lit : List Char → Tok
  | plus : (Char → Bool) → Tok
  | dot : Tok

/-- The list `[n, n-1, ..., 1]`, the candidate lengths a greedy `+`
tries, longest first (Python backtracking order). -/
def downFrom : Nat → List Nat
  | 0 => []
  | n + 1 => (n + 1) :: downFrom n

/-- Fuel-indexed matcher; one unit of fuel is spent per token, so fuel
`toks.length` always suffices.  Returns the list of strings consumed by
the `plus` tokens (the capture groups), or `none` when the pattern does
not match a prefix of `s` (Python `re.match` is anchored at the start
only). -/
def matchAux : Nat → List Tok → List Char → Option (List (List Char))
  | _, [], _ => some []
  | 0, _ :: _, _ => none
  | n + 1, Tok.lit cs :: ps, s =>
    if cs.isPrefixOf s then matchAux n ps (s.drop cs.length) else none
  | n + 1, Tok.dot :: ps, s =>
    match s with
    | [] => none
    | c :: rest => if c = '\n' then none else matchAux n ps rest
  | n + 1, Tok.plus f :: ps, s =>
    (downFrom (s.takeWhile f).length).findSome?
      (fun k => (matchAux n ps (s.drop k)).map (fun gs => s.take k :: gs))

/-- Match a token list against a string, Python `re.match` style. -/
def matchToks (toks : List Tok) (s : List Char) : Option (List (List Char)) :=
  matchAux toks.length toks s

/-- A compiled pattern: its token list plus, for every `plus` token in
order, the group name if the group is named (the rootfs regex has one
unnamed group). -/
structure RePattern : Type where
  toks : List Tok
  names : List (Option String)

/-- Named groups of a successful match, as `groupdict()` would return
them. -/
def gdictOf (names : List (Option String)) (gs : List (List Char)) :
    List (String × String) :=
  (names.zip gs).filterMap (fun p => p.1.map (fun nm => (nm, String.mk p.2)))

/-- Python `regex.match(s)` followed by `groupdict()`. -/
def reMatch (p : RePattern) (s : String) : Option (List (String × String)) :=
  (matchToks p.toks s.data).map (gdictOf p.names)

/-- Regex `droidian-rootfs-[A-Za-z0-9]+-(?P<architecture>[a-z0-9]+)_(?P<date>[0-9]+).zip`. -/
def DROIDIAN_ROOTFS : RePattern :=
  ⟨[Tok.lit "droidian-rootfs-".data, Tok.plus isAsciiAlnum, Tok.lit ['-'],
    Tok.plus isLowerDigit, Tok.lit ['_'], Tok.plus isDigitCh, Tok.dot,
    Tok.lit "zip".data],
   [none, some "architecture", some "date"]⟩

/-- Regex `droidian-adaptation-(?P<vendor>[A-Za-z0-9]+)-(?P<model>[a-z0-9A-Z\-\.\_]+)-(?P<architecture>[a-z0-9]+)_(?P<date>[0-9]+).zip`. -/
def DROIDIAN_ADAPTATION : RePattern :=
  ⟨[Tok.lit "droidian-adaptation-".data, Tok.plus isAsciiAlnum, Tok.lit ['-'],
    Tok.plus isModelChar, Tok.lit ['-'], Tok.plus isLowerDigit, Tok.lit ['_'],
    Tok.plus isDigitCh, Tok.dot, Tok.lit "zip".data],
   [some "vendor", some "model", some "architecture", some "date"]⟩

/-- Regex `droidian-(?P<feature>[A-Za-z0-9]+)-(?P<architecture>[a-z0-9]+)_(?P<date>[0-9]+).zip`. -/
def DROIDIAN_FEATURE : RePattern :=
  ⟨[Tok.lit "droidian-".data, Tok.plus isAsciiAlnum, Tok.lit ['-'],
    Tok.plus isLowerDigit, Tok.lit ['_'], Tok.plus isDigitCh, Tok.dot,
    Tok.lit "zip".data],
   [some "feature", some "architecture", some "date"]⟩

/-- The regex list of `Release.__init__`, in source order. -/
def patternList : List RePattern :=
  [DROIDIAN_ROOTFS, DROIDIAN_ADAPTATION, DROIDIAN_FEATURE]

/-! ## Configuration constants -/

/-- Source constant `IMAGES_REPOSITORIES`. -/
def IMAGES_REPOSITORIES : List String := ["droidian-images/rootfs-api28gsi-all"]

/-- Source constant `ALLOWED_PREFIXES`. -/
def ALLOWED_PREFIXES : List String :=
  IMAGES_REPOSITORIES.map (fun repository => "https://github.com/" ++ repository ++ "/")

/-- Python `url.startswith(ALLOWED_PREFIXES)` (a tuple argument means
"any of"). -/
def trustedUrl (url : String) : Bool :=
  ALLOWED_PREFIXES.any (fun p => p.data.isPrefixOf url.data)

/-! ## The classifier (`Release.__init__`) -/

/-- One asset of a GitHub release (the two fields the router reads). -/
structure Asset : Type where
  name : String
  browser_download_url : String
deriving DecidableEq

/-- Innermost level: artifact name to download URL. -/
abbrev VendorMap := List (String × String)

/-- Second level: vendor to `VendorMap`. -/
abbrev ArchMap := List (String × VendorMap)

/-- A classified release: architecture to `ArchMap`.  This is the dict
contents of a Python `Release` object. -/
abbrev ClassifiedRelease := List (String × ArchMap)

/-- Body of the inner `for regex in [...]` loop of `Release.__init__`
once a regex matched: insert the architecture and vendor levels
(`setdefault`) and, only for a source-trusted URL, store the artifact
URL. -/
def applyMatch (cr : ClassifiedRelease) (gdict : List (String × String))
    (url : String) : ClassifiedRelease :=
  let arch := (dget gdict "architecture").getD ""
  let vendor := (dget gdict "vendor").getD "generic"
  let target :=
    match dget gdict "model" with
    | some m => "adaptation-" ++ m ++ ".zip"
    | none =>
      match dget gdict "feature" with
      | some f => "feature-" ++ f ++ ".zip"
      | none => "rootfs.zip"
  let arch_dict := (dget cr arch).getD []
  let vendor_dict := (dget arch_dict vendor).getD []
  let vendor_dict' := if trustedUrl url then dset vendor_dict target url else vendor_dict
  dset cr arch (dset arch_dict vendor vendor_dict')

/-- Process one asset: try every regex in source order (the Python loop
has no `break`, so each matching regex contributes an update). -/
def processAsset (cr : ClassifiedRelease) (asset : Asset) : ClassifiedRelease :=
  patternList.foldl
    (fun acc p =>
      match reMatch p asset.name with
      | none => acc
      | some gdict => applyMatch acc gdict asset.browser_download_url)
    cr

/-- `Release.__init__`: fold the classifier over the release's assets,
starting from the empty dict. -/
def releaseInit (assets : List Asset) : ClassifiedRelease :=
  assets.foldl processAsset []

/-- Modelled from the spec: first-match-wins evaluation of the ordered
pattern list ("first match wins, no match → asset is silently
ignored").  Used to compare the source classifier against the spec's
wording. -/
def findFirstMatch : List RePattern → String → Option (List (String × String))
  | [], _ => none
  | p :: ps, nm =>
    match reMatch p nm with
    | some g => some g
    | none => findFirstMatch ps nm

/-- Modelled from the spec: classification of one asset where only the
first matching pattern determines the result. -/
def firstMatchClassify (cr : ClassifiedRelease) (asset : Asset) : ClassifiedRelease :=
  match findFirstMatch patternList asset.name with
  | some gdict => applyMatch cr gdict asset.browser_download_url
  | none => cr

/-! ## Slugs and small string helpers -/

/-- Characters the slug regex `[^a-z0-9_]+` leaves alone. -/
def allowedSlug (c : Char) : Bool :=
  ('a' ≤ c && c ≤ 'z') || ('0' ≤ c && c ≤ '9') || c = '_'

/-- Replace every maximal run of disallowed characters by a single
`'-'`; the flag records whether we are inside such a run. -/
def slugAux : List Char → Bool → List Char
  | [], _ => []
  | c :: rest, inRun =>
    if allowedSlug c then c :: slugAux rest false
    else if inRun then slugAux rest true
    else '-' :: slugAux rest true

/-- Source function `slugify`: lowercase, then collapse each run of
characters outside `[a-z0-9_]` into one `-`. -/
def slugify (s : String) : String :=
  String.mk (slugAux (s.data.map Char.toLower) false)

/-- Python `needle in hay` for strings (substring containment). -/
def containsSub (needle : List Char) : List Char → Bool
  | [] => needle.isPrefixOf []
  | c :: rest => needle.isPrefixOf (c :: rest) || containsSub needle rest

/-- Python `s.split(sep)` for a one-character separator. -/
def splitOnChar (sep : Char) : List Char → List (List Char)
  | [] => [[]]
  | c :: rest =>
    let r := splitOnChar sep rest
    if c = sep then [] :: r
    else
      match r with
      | [] => [[c]]
      | g :: gs => (c :: g) :: gs

/-- Python `repository.split("/")[-1]`. -/
def shortName (repository : String) : String :=
  String.mk ((splitOnChar '/' repository.data).getLastD [])

/-- The content-type check of `create_map`:
`"application/json" in content_type.split(";")`. -/
def jsonOk (contentType : String) : Bool :=
  (splitOnChar ';' contentType.data).any (fun g => g = "application/json".data)

/-! ## The catalog service (`create_map`, `request_handler`) -/

/-- One release as returned by the GitHub API (the fields the router
reads). -/
structure ReleaseData : Type where
  tag_name : String
  assets : List Asset
deriving DecidableEq

/-- A successfully returned HTTP response from the release API. -/
structure FetchResponse : Type where
  status : Nat
  contentType : String
  body : List ReleaseData
deriving DecidableEq

/-- Outcome of `session.get` for one repository: either the request
raised (network error — nothing in the source catches it), or a
response arrived. -/
inductive FetchOutcome : Type where
  | exn : FetchOutcome
  | response : FetchResponse → FetchOutcome
deriving DecidableEq

/-- Release-to-`ClassifiedRelease` map of one repository. -/
abbrev RepoMap := List (String × ClassifiedRelease)

/-- The whole mapping: repository short name to `RepoMap`. -/
abbrev Mapping := List (String × RepoMap)

instance : DecidableEq ArchMap := inferInstance

instance : DecidableEq ClassifiedRelease := inferInstance

instance : DecidableEq RepoMap := inferInstance

instance : DecidableEq Mapping := inferInstance

/-- Body of the `for release in content` loop of `create_map`: skip a
release whose classification is empty (`if rel:`), otherwise insert it
under its slug and track the first non-nightly slug as the stable
candidate. -/
def relStep (acc : RepoMap × Option String) (release : ReleaseData) :
    RepoMap × Option String :=
  let release_name := slugify release.tag_name
  let rel := releaseInit release.assets
  if rel.isEmpty then acc
  else
    let m := dset acc.1 release_name rel
    let latest :=
      if acc.2.isNone && !containsSub "nightly".data release_name.data then
        some release_name
      else acc.2
    (m, latest)

/-- Per-repository part of `create_map`: process every returned release,
then add the `droidian-stable-latest` alias if a stable candidate was
found. -/
def processRepo (repo_dict : RepoMap) (content : List ReleaseData) : RepoMap :=
  let p := content.foldl relStep (repo_dict, none)
  match p.2 with
  | some latest_stable =>
    dset p.1 "droidian-stable-latest" ((dget p.1 latest_stable).getD [])
  | none => p.1

/-- The repository loop of `create_map`.  `setdefault` inserts the short
name (bound to its previous value or `{}`) even before the status check;
a non-200 status or a non-JSON content type skips the repository
(`continue`); a raised fetch exception propagates (`Except.error`). -/
def create_map_go (fetch : String → FetchOutcome) :
    List String → Mapping → Except Unit Mapping
  | [], m => Except.ok m
  | repository :: rest, m =>
    match fetch repository with
    | FetchOutcome.exn => Except.error ()
    | FetchOutcome.response resp =>
      let short := shortName repository
      let repo_dict := (dget m short).getD []
      let m1 := dset m short repo_dict
      if resp.status != 200 || !jsonOk resp.contentType then
        create_map_go fetch rest m1
      else
        create_map_go fetch rest (dset m1 short (processRepo repo_dict resp.body))

/-- `ImageRouter.create_map`: build a fresh mapping from scratch (the
previous mapping is not an input). -/
def create_map (fetch : String → FetchOutcome) : Except Unit Mapping :=
  create_map_go fetch IMAGES_REPOSITORIES []

/-- What the handler sends: the redirect (`web.HTTPFound`) or the 404
(`web.HTTPNotFound`). -/
inductive HttpResponse : Type where
  | httpFound : String → HttpResponse
  | httpNotFound : HttpResponse

/-- Python `d[k]` as it appears inside the handler's `try`: a miss
raises `KeyError`, modelled as the error case. -/
def keyGet {α : Type} (m : List (String × α)) (k : String) : Except Unit α :=
  match dget m k with
  | some v => Except.ok v
  | none => Except.error ()

/-- The five chained subscripts of `request_handler`'s `try` block; the
first missing key raises `KeyError` and aborts the chain. -/
def resolveChain (mapping : Mapping)
    (repository version architecture vendor file : String) : Except Unit String :=
  match keyGet mapping repository with
  | Except.error e => Except.error e
  | Except.ok repoMap =>
    match keyGet repoMap version with
    | Except.error e => Except.error e
    | Except.ok relMap =>
      match keyGet relMap architecture with
      | Except.error e => Except.error e
      | Except.ok vendMap =>
        match keyGet vendMap vendor with
        | Except.error e => Except.error e
        | Except.ok fileMap => keyGet fileMap file

/-- `ImageRouter.request_handler`: redirect to the resolved URL, or
answer 404 when any subscript raised `KeyError` (the only exception the
chain can raise, and the only one the handler catches). -/
def request_handler (mapping : Mapping)
    (repository version architecture vendor file : String) : HttpResponse :=
  match resolveChain mapping repository version architecture vendor file with
  | Except.ok redirect_url => HttpResponse.httpFound redirect_url
  | Except.error _ => HttpResponse.httpNotFound

/-! ## Spec-side helper definitions

These mirror sentences of the specification (not the source) and are
compared with the source-derived functions above. -/

/-- Modelled from the spec: the slug of the first release (in API
order) that the release loop both inserts (non-empty classification)
and accepts as stable candidate (slug without `"nightly"`). -/
def firstStableSlug : List ReleaseData → Option String
  | [] => none
  | r :: rest =>
    let sl := slugify r.tag_name
    if !(releaseInit r.assets).isEmpty && !containsSub "nightly".data sl.data then
      some sl
    else firstStableSlug rest

/-- The last release in the list whose slug is `sl` and whose
classification is non-empty — the release whose classification the
release loop leaves stored under key `sl` (last write wins). -/
def lastWithSlug (sl : String) : List ReleaseData → Option ReleaseData
  | [] => none
  | r :: rest =>
    match lastWithSlug sl rest with
    | some x => some x
    | none =>
      if slugify r.tag_name == sl && !(releaseInit r.assets).isEmpty then some r
      else none

/-- Invariant: every URL stored at any (architecture, vendor,
artifact-name) triple of the classified release is source-trusted. -/
def TrustedInv (cr : ClassifiedRelease) : Prop :=
  ∀ arch am, dget cr arch = some am → ∀ v vm, dget am v = some vm →
    ∀ f u, dget vm f = some u → trustedUrl u = true

/-- Invariant: the classified release stores no URL at all — every
vendor-level dict inside it is empty. -/
def EmptyVendors (cr : ClassifiedRelease) : Prop :=
  ∀ arch am, dget cr arch = some am → ∀ v vm, dget am v = some vm → vm = []

/-- The architecture key the classifier uses for a `groupdict`. -/
def archOf (gdict : List (String × String)) : String :=
  (dget gdict "architecture").getD ""

/-- The vendor key the classifier uses for a `groupdict` (`"generic"`
when the pattern has no vendor group). -/
def vendorOf (gdict : List (String × String)) : String :=
  (dget gdict "vendor").getD "generic"

/-! ## Concrete demo data for witnesses and counterexamples -/

/-- A trusted download URL (starts with the single allowed origin). -/
def demoUrl : String :=
  "https://github.com/droidian-images/rootfs-api28gsi-all/releases/download/v1/a.zip"

/-- A second trusted download URL. -/
def demoUrl2 : String :=
  "https://github.com/droidian-images/rootfs-api28gsi-all/releases/download/v2/b.zip"

/-- An asset whose filename matches the rootfs pattern, trusted URL. -/
def demoRootfsAsset : Asset :=
  ⟨"droidian-rootfs-api28gsi-arm64_20230101.zip", demoUrl⟩

/-- A second rootfs-pattern asset for a different architecture. -/
def demoRootfsAsset2 : Asset :=
  ⟨"droidian-rootfs-api28gsi-armhf_20230101.zip", demoUrl2⟩

/-- An asset whose filename matches the rootfs pattern but whose URL is
not on the allow-list. -/
def demoUntrustedAsset : Asset :=
  ⟨"droidian-rootfs-api28gsi-arm64_20230101.zip", "https://evil.example/a.zip"⟩

/-- Fetch oracle refuting C7: the first repository's fetch raises a
network error, the second one would answer releases successfully. -/
def cexFetch7 (repository : String) : FetchOutcome :=
  if repository = "a/one" then FetchOutcome.exn
  else FetchOutcome.response ⟨200, "application/json", [⟨"bullseye", [demoRootfsAsset]⟩]⟩

/-- Release list refuting C5: the first non-nightly release classifies
to the empty dict and is skipped, so the alias points at the second
one. -/
def cexRelsC5 : List ReleaseData :=
  [⟨"stable.one", []⟩, ⟨"stable.two", [demoRootfsAsset]⟩]

/-- Fetch oracle with one failed (HTTP 500) and one successful
repository, no network errors. -/
def demoFetchC4 (repository : String) : FetchOutcome :=
  if repository = "a/bad" then FetchOutcome.response ⟨500, "application/json", []⟩
  else FetchOutcome.response
    ⟨200, "application/json", [⟨"bullseye", [demoRootfsAsset]⟩]⟩

/-- The spec's stable-alias example: slugs `nightly-2`, `stable-1`,
`nightly-3` in order, all with a non-empty classification. -/
def demoRelsStable : List ReleaseData :=
  [⟨"nightly.2", [demoRootfsAsset]⟩, ⟨"stable.1", [demoRootfsAsset]⟩,
   ⟨"nightly.3", [demoRootfsAsset]⟩]

/-- A release list in which one release's own slug is exactly
`droidian-stable-latest` while an earlier stable candidate exists. -/
def demoRelsC10 : List ReleaseData :=
  [⟨"stable.one", [demoRootfsAsset]⟩,
   ⟨"droidian.stable.latest", [demoRootfsAsset2]⟩]

end ImageRouter

namespace ImageRouter

/-! ## Lemmas: dict operations -/

theorem dget_dset_self {α : Type} (m : List (String × α)) (k : String) (v : α) :
    dget (dset m k v) k = some v := by
  induction m with
  | nil => simp [dget, dset]
  | cons p rest ih =>
    obtain ⟨k', v'⟩ := p
    by_cases h : k' = k
    · simp [dset, h, dget]
    · simp [dset, h, dget, ih]

theorem dget_dset_ne {α : Type} (m : List (String × α)) {k k' : String} (v : α)
    (h : k ≠ k') : dget (dset m k v) k' = dget m k' := by
  induction m with
  | nil => simp [dget, dset, h]
  | cons p rest ih =>
    obtain ⟨k'', v''⟩ := p
    by_cases h2 : k'' = k
    · subst h2
      simp [dset, dget, h]
    · simp [dset, h2, dget, ih]

theorem dset_ne_nil {α : Type} (m : List (String × α)) (k : String) (v : α) :
    dset m k v ≠ [] := by
  cases m with
  | nil => simp [dset]
  | cons p rest =>
    obtain ⟨k', v'⟩ := p
    by_cases h : k' = k <;> simp [dset, h]

/-! ## Lemmas: the matcher -/

theorem downFrom_findSome?_some {α : Type} {g : Nat → Option α} :
    ∀ {n : Nat} {r : α}, (downFrom n).findSome? g = some r →
      ∃ k, 1 ≤ k ∧ k ≤ n ∧ g k = some r := by
  intro n
  induction n with
  | zero => intro r h; simp [downFrom] at h
  | succ n ih =>
    intro r h
    rw [downFrom, List.findSome?_cons] at h
    cases hg : g (n + 1) with
    | some b =>
      rw [hg] at h
      exact ⟨n + 1, by omega, Nat.le_refl _, by rw [hg]; exact h⟩
    | none =>
      rw [hg] at h
      obtain ⟨k, h1, h2, h3⟩ := ih h
      exact ⟨k, h1, Nat.le_succ_of_le h2, h3⟩

theorem take_all_of_le_takeWhile {f : Char → Bool} :
    ∀ (s : List Char) (k : Nat), k ≤ (s.takeWhile f).length →
      ∀ c ∈ s.take k, f c = true := by
  intro s
  induction s with
  | nil => intro k _ c hc; simp at hc
  | cons a rest ih =>
    intro k hk c hc
    by_cases hf : f a
    · rw [List.takeWhile_cons, if_pos hf] at hk
      cases k with
      | zero => simp at hc
      | succ j =>
        rw [List.take_succ_cons] at hc
        rcases List.mem_cons.mp hc with rfl | hc'
        · exact hf
        · exact ih j (by simpa using hk) c hc'
    · rw [List.takeWhile_cons, if_neg hf] at hk
      simp at hk
      subst hk
      simp at hc

theorem take_ne_nil_of_le_takeWhile {f : Char → Bool} {s : List Char} {k : Nat}
    (h1 : 1 ≤ k) (h2 : k ≤ (s.takeWhile f).length) : s.take k ≠ [] := by
  intro e
  have hlen : (s.take k).length = 0 := by rw [e]; rfl
  rw [List.length_take] at hlen
  have hle : (s.takeWhile f).length ≤ s.length := (List.takeWhile_prefix f).length_le
  omega

theorem matchAux_lit_some {n : Nat} {cs : List Char} {ps : List Tok}
    {s : List Char} {gs : List (List Char)}
    (h : matchAux (n + 1) (Tok.lit cs :: ps) s = some gs) :
    ∃ t, s = cs ++ t ∧ matchAux n ps t = some gs := by
  rw [matchAux] at h
  by_cases hp : cs.isPrefixOf s
  · rw [if_pos hp] at h
    obtain ⟨t, ht⟩ : cs <+: s := List.isPrefixOf_iff_prefix.mp hp
    refine ⟨t, ht.symm, ?_⟩
    rw [← ht, List.drop_left] at h
    exact h
  · rw [if_neg hp] at h
    exact absurd h (by simp)

theorem matchAux_plus_some {n : Nat} {f : Char → Bool} {ps : List Tok}
    {s : List Char} {gs : List (List Char)}
    (h : matchAux (n + 1) (Tok.plus f :: ps) s = some gs) :
    ∃ k gs', 1 ≤ k ∧ k ≤ (s.takeWhile f).length ∧ gs = s.take k :: gs' ∧
      matchAux n ps (s.drop k) = some gs' := by
  rw [matchAux] at h
  obtain ⟨k, hk1, hk2, hg⟩ := downFrom_findSome?_some h
  obtain ⟨gs', h1, h2⟩ := Option.map_eq_some'.mp hg
  exact ⟨k, gs', hk1, hk2, h2.symm, h1⟩

end ImageRouter

namespace ImageRouter

/-! ## Lemmas: shapes of matched filenames -/

theorem rootfs_shape {s : List Char} {gs : List (List Char)}
    (h : matchToks DROIDIAN_ROOTFS.toks s = some gs) :
    ∃ X A rest, s = "droidian-rootfs-".data ++ (X ++ '-' :: (A ++ '_' :: rest)) ∧
      X ≠ [] ∧ (∀ c ∈ X, isAsciiAlnum c = true) ∧
      A ≠ [] ∧ (∀ c ∈ A, isLowerDigit c = true) := by
  obtain ⟨t1, ht1, h7⟩ := matchAux_lit_some h
  obtain ⟨k1, gs1, hk11, hk12, _, h6⟩ := matchAux_plus_some h7
  obtain ⟨t2, ht2, h5⟩ := matchAux_lit_some h6
  obtain ⟨k2, gs2, hk21, hk22, _, h4⟩ := matchAux_plus_some h5
  obtain ⟨t3, ht3, _⟩ := matchAux_lit_some h4
  refine ⟨t1.take k1, t2.take k2, t3, ?_, ?_, ?_, ?_, ?_⟩
  · rw [ht1]
    congr 1
    calc t1 = t1.take k1 ++ t1.drop k1 := (List.take_append_drop k1 t1).symm
      _ = t1.take k1 ++ ('-' :: t2) := by rw [ht2]; rfl
      _ = t1.take k1 ++ ('-' :: (t2.take k2 ++ t2.drop k2)) := by
            rw [List.take_append_drop]
      _ = t1.take k1 ++ ('-' :: (t2.take k2 ++ ('_' :: t3))) := by rw [ht3]; rfl
  · exact take_ne_nil_of_le_takeWhile hk11 hk12
  · exact take_all_of_le_takeWhile t1 k1 hk12
  · exact take_ne_nil_of_le_takeWhile hk21 hk22
  · exact take_all_of_le_takeWhile t2 k2 hk22

theorem feature_shape {s : List Char} {gs : List (List Char)}
    (h : matchToks DROIDIAN_FEATURE.toks s = some gs) :
    ∃ F A rest, s = "droidian-".data ++ (F ++ '-' :: (A ++ '_' :: rest)) ∧
      F ≠ [] ∧ (∀ c ∈ F, isAsciiAlnum c = true) ∧
      A ≠ [] ∧ (∀ c ∈ A, isLowerDigit c = true) := by
  obtain ⟨t1, ht1, h7⟩ := matchAux_lit_some h
  obtain ⟨k1, gs1, hk11, hk12, _, h6⟩ := matchAux_plus_some h7
  obtain ⟨t2, ht2, h5⟩ := matchAux_lit_some h6
  obtain ⟨k2, gs2, hk21, hk22, _, h4⟩ := matchAux_plus_some h5
  obtain ⟨t3, ht3, _⟩ := matchAux_lit_some h4
  refine ⟨t1.take k1, t2.take k2, t3, ?_, ?_, ?_, ?_, ?_⟩
  · rw [ht1]
    congr 1
    calc t1 = t1.take k1 ++ t1.drop k1 := (List.take_append_drop k1 t1).symm
      _ = t1.take k1 ++ ('-' :: t2) := by rw [ht2]; rfl
      _ = t1.take k1 ++ ('-' :: (t2.take k2 ++ t2.drop k2)) := by
            rw [List.take_append_drop]
      _ = t1.take k1 ++ ('-' :: (t2.take k2 ++ ('_' :: t3))) := by rw [ht3]; rfl
  · exact take_ne_nil_of_le_takeWhile hk11 hk12
  · exact take_all_of_le_takeWhile t1 k1 hk12
  · exact take_ne_nil_of_le_takeWhile hk21 hk22
  · exact take_all_of_le_takeWhile t2 k2 hk22

theorem adaptation_shape {s : List Char} {gs : List (List Char)}
    (h : matchToks DROIDIAN_ADAPTATION.toks s = some gs) :
    ∃ V rest, s = "droidian-adaptation-".data ++ (V ++ '-' :: rest) ∧
      V ≠ [] ∧ (∀ c ∈ V, isAsciiAlnum c = true) := by
  obtain ⟨t1, ht1, h9⟩ := matchAux_lit_some h
  obtain ⟨k1, gs1, hk11, hk12, _, h8⟩ := matchAux_plus_some h9
  obtain ⟨t2, ht2, _⟩ := matchAux_lit_some h8
  refine ⟨t1.take k1, t2, ?_, ?_, ?_⟩
  · rw [ht1]
    congr 1
    calc t1 = t1.take k1 ++ t1.drop k1 := (List.take_append_drop k1 t1).symm
      _ = t1.take k1 ++ ('-' :: t2) := by rw [ht2]; rfl
  · exact take_ne_nil_of_le_takeWhile hk11 hk12
  · exact take_all_of_le_takeWhile t1 k1 hk12

end ImageRouter

namespace ImageRouter

/-! ## Lemmas: character-class facts and separator combinatorics -/

theorem alnum_not_sep {c : Char} (h : isAsciiAlnum c = true) :
    c ≠ '-' ∧ c ≠ '_' := by
  constructor <;> rintro rfl <;> exact absurd h (by decide)

theorem lowdig_not_sep {c : Char} (h : isLowerDigit c = true) :
    c ≠ '-' ∧ c ≠ '_' := by
  constructor <;> rintro rfl <;> exact absurd h (by decide)

/-- A block free of `'-'` and `'_'` followed by `'_'` can never equal a
block free of `'-'` and `'_'` followed by `'-'`: the first separator to
appear decides. -/
theorem sep_clash : ∀ (A V w u : List Char),
    (∀ c ∈ A, c ≠ '-' ∧ c ≠ '_') → (∀ c ∈ V, c ≠ '-' ∧ c ≠ '_') →
    A ++ '_' :: w ≠ V ++ '-' :: u := by
  intro A
  induction A with
  | nil =>
    intro V w u _ hV e
    cases V with
    | nil => simp at e
    | cons v V' =>
      have hv := hV v (by simp)
      exact hv.2 (by injection e with h1 _; exact h1.symm)
  | cons a A' ih =>
    intro V w u hA hV e
    cases V with
    | nil =>
      have := (hA a (by simp)).1
      injection e with h1 _
      exact this h1
    | cons v V' =>
      injection e with h1 h2
      exact ih V' w u (fun c hc => hA c (by simp [hc]))
        (fun c hc => hV c (by simp [hc])) h2

/-- Two decompositions at the first occurrence of a separator agree. -/
theorem sep_unique {c : Char} : ∀ (xs ys u v : List Char),
    (∀ a ∈ xs, a ≠ c) → (∀ a ∈ ys, a ≠ c) →
    xs ++ c :: u = ys ++ c :: v → xs = ys ∧ u = v := by
  intro xs
  induction xs with
  | nil =>
    intro ys u v _ hys e
    cases ys with
    | nil =>
      refine ⟨rfl, ?_⟩
      injection e
    | cons y ys' =>
      exfalso
      injection e with h1 _
      exact hys y (by simp) h1.symm
  | cons x xs' ih =>
    intro ys u v hxs hys e
    cases ys with
    | nil =>
      exfalso
      injection e with h1 _
      exact hxs x (by simp) h1
    | cons y ys' =>
      injection e with h1 h2
      obtain ⟨e1, e2⟩ := ih ys' u v (fun a ha => hxs a (by simp [ha]))
        (fun a ha => hys a (by simp [ha])) h2
      exact ⟨by rw [h1, e1], e2⟩

/-! ## Lemmas: the three regex languages are pairwise disjoint

The Python loop applies every matching regex (there is no `break`), so
first-match-wins only coincides with the implementation because no
filename can match two of the three patterns. -/

theorem rootfs_adaptation_clash {s : List Char} {g1 g2 : List (List Char)}
    (h1 : matchToks DROIDIAN_ROOTFS.toks s = some g1)
    (h2 : matchToks DROIDIAN_ADAPTATION.toks s = some g2) : False := by
  obtain ⟨X, A, r1, e1, _, _, _, _⟩ := rootfs_shape h1
  obtain ⟨V, r2, e2, _, _⟩ := adaptation_shape h2
  have hp1 : "droidian-rootfs-".data <+: s := ⟨_, e1.symm⟩
  have hp2 : "droidian-adaptation-".data <+: s := ⟨_, e2.symm⟩
  rcases List.prefix_or_prefix_of_prefix hp1 hp2 with h | h
  · exact absurd h (by decide)
  · exact absurd h (by decide)

theorem adaptation_feature_clash {s : List Char} {g1 g2 : List (List Char)}
    (h1 : matchToks DROIDIAN_ADAPTATION.toks s = some g1)
    (h2 : matchToks DROIDIAN_FEATURE.toks s = some g2) : False := by
  obtain ⟨V, r1, e1, _, hV⟩ := adaptation_shape h1
  obtain ⟨F, A, r2, e2, _, hF, _, hA⟩ := feature_shape h2
  have hsplit : "droidian-adaptation-".data =
      "droidian-".data ++ ("adaptation".data ++ ['-']) := by decide
  rw [hsplit, List.append_assoc] at e1
  have ecan : "adaptation".data ++ ('-' :: (V ++ '-' :: r1)) =
      F ++ '-' :: (A ++ '_' :: r2) := by
    have := List.append_cancel_left (e1.symm.trans e2)
    simpa [List.append_assoc] using this
  obtain ⟨_, erest⟩ := sep_unique "adaptation".data F (V ++ '-' :: r1)
    (A ++ '_' :: r2) (by decide) (fun a ha => (alnum_not_sep (hF a ha)).1) ecan
  exact sep_clash A V r2 r1 (fun c hc => lowdig_not_sep (hA c hc))
    (fun c hc => alnum_not_sep (hV c hc)) erest.symm

theorem rootfs_feature_clash {s : List Char} {g1 g2 : List (List Char)}
    (h1 : matchToks DROIDIAN_ROOTFS.toks s = some g1)
    (h2 : matchToks DROIDIAN_FEATURE.toks s = some g2) : False := by
  obtain ⟨X, A1, r1, e1, _, hX, _, _⟩ := rootfs_shape h1
  obtain ⟨F, A, r2, e2, _, hF, _, hA⟩ := feature_shape h2
  have hsplit : "droidian-rootfs-".data =
      "droidian-".data ++ ("rootfs".data ++ ['-']) := by decide
  rw [hsplit, List.append_assoc] at e1
  have ecan : "rootfs".data ++ ('-' :: (X ++ '-' :: (A1 ++ '_' :: r1))) =
      F ++ '-' :: (A ++ '_' :: r2) := by
    have := List.append_cancel_left (e1.symm.trans e2)
    simpa [List.append_assoc] using this
  obtain ⟨_, erest⟩ := sep_unique "rootfs".data F (X ++ '-' :: (A1 ++ '_' :: r1))
    (A ++ '_' :: r2) (by decide) (fun a ha => (alnum_not_sep (hF a ha)).1) ecan
  exact sep_clash A X r2 (A1 ++ '_' :: r1)
    (fun c hc => lowdig_not_sep (hA c hc))
    (fun c hc => alnum_not_sep (hX c hc)) erest.symm

end ImageRouter

namespace ImageRouter

/-! ## Lemmas: lifting disjointness to `reMatch`, first-match equivalence -/

theorem reMatch_some_toks {p : RePattern} {s : String} {g : List (String × String)}
    (h : reMatch p s = some g) : ∃ gs, matchToks p.toks s.data = some gs := by
  obtain ⟨gs, h1, _⟩ := Option.map_eq_some'.mp h
  exact ⟨gs, h1⟩

theorem reMatch_rootfs_adaptation {s : String} {g1 g2 : List (String × String)}
    (h1 : reMatch DROIDIAN_ROOTFS s = some g1)
    (h2 : reMatch DROIDIAN_ADAPTATION s = some g2) : False := by
  obtain ⟨gs1, e1⟩ := reMatch_some_toks h1
  obtain ⟨gs2, e2⟩ := reMatch_some_toks h2
  exact rootfs_adaptation_clash e1 e2

theorem reMatch_rootfs_feature {s : String} {g1 g2 : List (String × String)}
    (h1 : reMatch DROIDIAN_ROOTFS s = some g1)
    (h2 : reMatch DROIDIAN_FEATURE s = some g2) : False := by
  obtain ⟨gs1, e1⟩ := reMatch_some_toks h1
  obtain ⟨gs2, e2⟩ := reMatch_some_toks h2
  exact rootfs_feature_clash e1 e2

theorem reMatch_adaptation_feature {s : String} {g1 g2 : List (String × String)}
    (h1 : reMatch DROIDIAN_ADAPTATION s = some g1)
    (h2 : reMatch DROIDIAN_FEATURE s = some g2) : False := by
  obtain ⟨gs1, e1⟩ := reMatch_some_toks h1
  obtain ⟨gs2, e2⟩ := reMatch_some_toks h2
  exact adaptation_feature_clash e1 e2

/-- The source loop (no `break`: every matching regex is applied, in
order) computes the same classification as first-match-wins, because at
most one of the three patterns can match any filename. -/
theorem processAsset_eq_firstMatch (cr : ClassifiedRelease) (a : Asset) :
    processAsset cr a = firstMatchClassify cr a := by
  unfold processAsset firstMatchClassify patternList
  simp only [List.foldl]
  rcases hR : reMatch DROIDIAN_ROOTFS a.name with _ | gR <;>
    rcases hA : reMatch DROIDIAN_ADAPTATION a.name with _ | gA <;>
      rcases hF : reMatch DROIDIAN_FEATURE a.name with _ | gF
  · simp [findFirstMatch, hR, hA, hF]
  · simp [findFirstMatch, hR, hA, hF]
  · simp [findFirstMatch, hR, hA, hF]
  · exact (reMatch_adaptation_feature hA hF).elim
  · simp [findFirstMatch, hR, hA, hF]
  · exact (reMatch_rootfs_feature hR hF).elim
  · exact (reMatch_rootfs_adaptation hR hA).elim
  · exact (reMatch_rootfs_adaptation hR hA).elim

end ImageRouter

namespace ImageRouter

/-! ## Lemmas: every stored URL is source-trusted -/

theorem nested_trusted_step (cr : ClassifiedRelease) (A V T url : String)
    (hcr : TrustedInv cr) :
    TrustedInv (dset cr A (dset ((dget cr A).getD []) V
      (if trustedUrl url then
         dset ((dget ((dget cr A).getD []) V).getD []) T url
       else (dget ((dget cr A).getD []) V).getD []))) := by
  intro arch am ham v vm hvm f u hu
  by_cases hA : A = arch
  · subst hA
    rw [dget_dset_self] at ham
    injection ham with ham
    subst ham
    by_cases hV : V = v
    · subst hV
      rw [dget_dset_self] at hvm
      injection hvm with hvm
      subst hvm
      cases htr : trustedUrl url with
      | true =>
        rw [if_pos htr] at hu
        by_cases hT : T = f
        · subst hT
          rw [dget_dset_self] at hu
          injection hu with hu
          subst hu
          exact htr
        · rw [dget_dset_ne _ _ hT] at hu
          cases had : dget cr A with
          | none => rw [had] at hu; simp [dget] at hu
          | some ad =>
            rw [had] at hu
            simp only [Option.getD_some] at hu
            cases hvd : dget ad V with
            | none => rw [hvd] at hu; simp [dget] at hu
            | some vd =>
              rw [hvd] at hu
              exact hcr A ad had V vd hvd f u hu
      | false =>
        rw [if_neg (by simp [htr])] at hu
        cases had : dget cr A with
        | none => rw [had] at hu; simp [dget] at hu
        | some ad =>
          rw [had] at hu
          simp only [Option.getD_some] at hu
          cases hvd : dget ad V with
          | none => rw [hvd] at hu; simp [dget] at hu
          | some vd =>
            rw [hvd] at hu
            exact hcr A ad had V vd hvd f u hu
    · rw [dget_dset_ne _ _ hV] at hvm
      cases had : dget cr A with
      | none => rw [had] at hvm; simp [dget] at hvm
      | some ad =>
        rw [had] at hvm
        simp only [Option.getD_some] at hvm
        exact hcr A ad had v vm hvm f u hu
  · rw [dget_dset_ne _ _ hA] at ham
    exact hcr arch am ham v vm hvm f u hu

theorem applyMatch_trusted {cr : ClassifiedRelease}
    (gd : List (String × String)) (url : String) (hcr : TrustedInv cr) :
    TrustedInv (applyMatch cr gd url) :=
  nested_trusted_step cr _ _ _ url hcr

theorem processAsset_trusted {cr : ClassifiedRelease} (a : Asset)
    (hcr : TrustedInv cr) : TrustedInv (processAsset cr a) := by
  unfold processAsset
  have hgen : ∀ (ps : List RePattern) (m : ClassifiedRelease), TrustedInv m →
      TrustedInv (ps.foldl
        (fun acc p =>
          match reMatch p a.name with
          | none => acc
          | some gdict => applyMatch acc gdict a.browser_download_url) m) := by
    intro ps
    induction ps with
    | nil => exact fun m hm => hm
    | cons p ps ih =>
      intro m hm
      simp only [List.foldl]
      apply ih
      rcases hr : reMatch p a.name with _ | gd
      · simpa only [hr] using hm
      · simp only [hr]
        exact applyMatch_trusted gd a.browser_download_url hm
  exact hgen patternList cr hcr

theorem releaseInit_trusted (assets : List Asset) :
    TrustedInv (releaseInit assets) := by
  unfold releaseInit
  have hgen : ∀ (l : List Asset) (m : ClassifiedRelease), TrustedInv m →
      TrustedInv (l.foldl processAsset m) := by
    intro l
    induction l with
    | nil => exact fun m hm => hm
    | cons a l ih =>
      intro m hm
      simp only [List.foldl]
      exact ih _ (processAsset_trusted a hm)
  apply hgen
  intro arch am ham
  simp [dget] at ham

end ImageRouter

namespace ImageRouter

/-! ## Lemmas: the resolution chain -/

theorem resolveChain_ok_iff (mapping : Mapping)
    (r v a vd f url : String) :
    resolveChain mapping r v a vd f = Except.ok url ↔
      ∃ rm am vm fm, dget mapping r = some rm ∧ dget rm v = some am ∧
        dget am a = some vm ∧ dget vm vd = some fm ∧ dget fm f = some url := by
  unfold resolveChain keyGet
  rcases h1 : dget mapping r with _ | rm
  · simp [h1]
  · simp only [h1]
    rcases h2 : dget rm v with _ | am
    · simp [h2]
    · simp only [h2]
      rcases h3 : dget am a with _ | vm
      · simp [h2, h3]
      · simp only [h3]
        rcases h4 : dget vm vd with _ | fm
        · simp [h2, h3, h4]
        · simp only [h4]
          rcases h5 : dget fm f with _ | u
          · simp [h2, h3, h4, h5]
          · simp [h2, h3, h4, h5, eq_comm]

theorem request_handler_found_iff (mapping : Mapping) (r v a vd f url : String) :
    request_handler mapping r v a vd f = HttpResponse.httpFound url ↔
      resolveChain mapping r v a vd f = Except.ok url := by
  unfold request_handler
  rcases h : resolveChain mapping r v a vd f with e | u
  · simp [h]
  · simp [h, eq_comm]

theorem request_handler_notFound_iff (mapping : Mapping) (r v a vd f : String) :
    request_handler mapping r v a vd f = HttpResponse.httpNotFound ↔
      ¬ ∃ url, resolveChain mapping r v a vd f = Except.ok url := by
  unfold request_handler
  rcases h : resolveChain mapping r v a vd f with e | u
  · simp [h]
  · simp [h]

end ImageRouter

namespace ImageRouter

/-! ## Lemmas: the release loop of `create_map` -/

/-- What the release loop leaves stored under a slug: the classification
of the last release with that slug whose classification is non-empty
(last write wins), or whatever the starting dict held. -/
theorem relLoop_lookup : ∀ (rels : List ReleaseData) (m0 : RepoMap)
    (lo : Option String) (sl : String),
    dget ((rels.foldl relStep (m0, lo)).1) sl =
      (match lastWithSlug sl rels with
       | some r => some (releaseInit r.assets)
       | none => dget m0 sl) := by
  intro rels
  induction rels with
  | nil => intro m0 lo sl; simp [lastWithSlug]
  | cons r rest ih =>
    intro m0 lo sl
    rw [List.foldl_cons]
    cases he : (releaseInit r.assets).isEmpty with
    | true =>
      have hstep : relStep (m0, lo) r = (m0, lo) := by
        unfold relStep
        rw [if_pos he]
      rw [hstep, ih]
      rw [lastWithSlug]
      cases hlast : lastWithSlug sl rest with
      | some x => simp [hlast]
      | none => simp [hlast, he]
    | false =>
      have hstep : relStep (m0, lo) r =
          (dset m0 (slugify r.tag_name) (releaseInit r.assets),
           if lo.isNone && !containsSub "nightly".data (slugify r.tag_name).data
           then some (slugify r.tag_name) else lo) := by
        unfold relStep
        rw [if_neg (by simp [he])]
      rw [hstep, ih]
      rw [lastWithSlug]
      cases hlast : lastWithSlug sl rest with
      | some x => simp [hlast]
      | none =>
        simp only [hlast]
        by_cases hsl : slugify r.tag_name = sl
        · subst hsl
          simp [he, dget_dset_self]
        · rw [dget_dset_ne _ _ hsl]
          simp [he, hsl]

/-- The stable candidate the release loop tracks is the slug of the
first non-skipped, non-nightly release (unless one was already fixed). -/
theorem relLoop_latest : ∀ (rels : List ReleaseData) (m0 : RepoMap)
    (lo : Option String),
    (rels.foldl relStep (m0, lo)).2 =
      (match lo with
       | some x => some x
       | none => firstStableSlug rels) := by
  intro rels
  induction rels with
  | nil => intro m0 lo; cases lo <;> simp [firstStableSlug]
  | cons r rest ih =>
    intro m0 lo
    rw [List.foldl_cons]
    cases he : (releaseInit r.assets).isEmpty with
    | true =>
      have hstep : relStep (m0, lo) r = (m0, lo) := by
        unfold relStep
        rw [if_pos he]
      rw [hstep, ih]
      cases lo with
      | some x => rfl
      | none =>
        rw [firstStableSlug]
        simp [he]
    | false =>
      have hstep : relStep (m0, lo) r =
          (dset m0 (slugify r.tag_name) (releaseInit r.assets),
           if lo.isNone && !containsSub "nightly".data (slugify r.tag_name).data
           then some (slugify r.tag_name) else lo) := by
        unfold relStep
        rw [if_neg (by simp [he])]
      rw [hstep, ih]
      cases lo with
      | some x => simp
      | none =>
        rw [firstStableSlug]
        cases hn : containsSub "nightly".data (slugify r.tag_name).data with
        | true => simp [he, hn]
        | false => simp [he, hn]

end ImageRouter

namespace ImageRouter

/-! ## Lemmas: the repository loop of `create_map` -/

theorem create_map_go_nil (fetch : String → FetchOutcome) (m0 : Mapping) :
    create_map_go fetch [] m0 = Except.ok m0 := rfl

theorem create_map_go_cons_exn (fetch : String → FetchOutcome)
    {r : String} (rest : List String) (m0 : Mapping)
    (hf : fetch r = FetchOutcome.exn) :
    create_map_go fetch (r :: rest) m0 = Except.error () := by
  rw [create_map_go, hf]

theorem create_map_go_cons_response (fetch : String → FetchOutcome)
    {r : String} (rest : List String) (m0 : Mapping) {resp : FetchResponse}
    (hf : fetch r = FetchOutcome.response resp) :
    create_map_go fetch (r :: rest) m0 =
      (if (resp.status != 200 || !jsonOk resp.contentType) = true then
         create_map_go fetch rest
           (dset m0 (shortName r) ((dget m0 (shortName r)).getD []))
       else
         create_map_go fetch rest
           (dset (dset m0 (shortName r) ((dget m0 (shortName r)).getD []))
             (shortName r)
             (processRepo ((dget m0 (shortName r)).getD []) resp.body))) := by
  rw [create_map_go, hf]

/-- When no fetch raises, `create_map_go` always succeeds. -/
theorem cmg_ok (fetch : String → FetchOutcome) :
    ∀ (repos : List String) (m0 : Mapping),
      (∀ r ∈ repos, fetch r ≠ FetchOutcome.exn) →
      ∃ m, create_map_go fetch repos m0 = Except.ok m := by
  intro repos
  induction repos with
  | nil => exact fun m0 _ => ⟨m0, rfl⟩
  | cons r rest ih =>
    intro m0 hne
    cases hf : fetch r with
    | exn => exact absurd hf (hne r (by simp))
    | response resp =>
      rw [create_map_go_cons_response fetch rest m0 hf]
      have hrest : ∀ x ∈ rest, fetch x ≠ FetchOutcome.exn :=
        fun x hx => hne x (by simp [hx])
      by_cases hfail : (resp.status != 200 || !jsonOk resp.contentType) = true
      · rw [if_pos hfail]
        exact ih _ hrest
      · rw [if_neg hfail]
        exact ih _ hrest

/-- One raised fetch makes the whole cycle fail, no matter which
repository raised. -/
theorem cmg_exn (fetch : String → FetchOutcome) :
    ∀ (repos : List String) (m0 : Mapping),
      (∃ r ∈ repos, fetch r = FetchOutcome.exn) →
      create_map_go fetch repos m0 = Except.error () := by
  intro repos
  induction repos with
  | nil => rintro m0 ⟨r, hr, _⟩; simp at hr
  | cons r rest ih =>
    rintro m0 ⟨x, hx, hxe⟩
    cases hf : fetch r with
    | exn => exact create_map_go_cons_exn fetch rest m0 hf
    | response resp =>
      have hxrest : x ∈ rest := by
        rcases List.mem_cons.mp hx with rfl | h
        · rw [hf] at hxe; exact absurd hxe (by simp)
        · exact h
      rw [create_map_go_cons_response fetch rest m0 hf]
      by_cases hfail : (resp.status != 200 || !jsonOk resp.contentType) = true
      · rw [if_pos hfail]; exact ih _ ⟨x, hxrest, hxe⟩
      · rw [if_neg hfail]; exact ih _ ⟨x, hxrest, hxe⟩

/-- Repositories whose short name differs from `key` never touch the
entry at `key`. -/
theorem cmg_preserve (fetch : String → FetchOutcome) (key : String) :
    ∀ (repos : List String) (m0 m : Mapping),
      (∀ r ∈ repos, shortName r ≠ key) →
      create_map_go fetch repos m0 = Except.ok m →
      dget m key = dget m0 key := by
  intro repos
  induction repos with
  | nil =>
    intro m0 m _ h
    rw [create_map_go_nil] at h
    injection h with h
    rw [h]
  | cons r rest ih =>
    intro m0 m hne h
    have hr : shortName r ≠ key := hne r (by simp)
    have hrest : ∀ x ∈ rest, shortName x ≠ key := fun x hx => hne x (by simp [hx])
    cases hf : fetch r with
    | exn =>
      rw [create_map_go_cons_exn fetch rest m0 hf] at h
      exact absurd h (by simp)
    | response resp =>
      rw [create_map_go_cons_response fetch rest m0 hf] at h
      by_cases hfail : (resp.status != 200 || !jsonOk resp.contentType) = true
      · rw [if_pos hfail] at h
        rw [ih _ _ hrest h, dget_dset_ne _ _ hr]
      · rw [if_neg hfail] at h
        rw [ih _ _ hrest h, dget_dset_ne _ _ hr, dget_dset_ne _ _ hr]

/-- Slice left for a repository whose response is skipped (non-200 or
non-JSON): exactly the `setdefault` value. -/
theorem cmg_lookup_failed (fetch : String → FetchOutcome) :
    ∀ (repos : List String) (m0 m : Mapping) (r : String) (resp : FetchResponse),
      r ∈ repos →
      (∀ x ∈ repos, fetch x ≠ FetchOutcome.exn) →
      repos.Pairwise (fun x y => shortName x ≠ shortName y) →
      fetch r = FetchOutcome.response resp →
      (resp.status != 200 || !jsonOk resp.contentType) = true →
      create_map_go fetch repos m0 = Except.ok m →
      dget m (shortName r) = some ((dget m0 (shortName r)).getD []) := by
  intro repos
  induction repos with
  | nil => intro m0 m r resp hr; simp at hr
  | cons r0 rest ih =>
    intro m0 m r resp hr hne hpw hresp hfail h
    rcases List.mem_cons.mp hr with rfl | hrr
    · rw [create_map_go_cons_response fetch rest m0 hresp] at h
      rw [if_pos hfail] at h
      have hdistinct : ∀ x ∈ rest, shortName x ≠ shortName r :=
        fun x hx => ((List.pairwise_cons.mp hpw).1 x hx).symm
      rw [cmg_preserve fetch (shortName r) rest _ m hdistinct h]
      rw [dget_dset_self]
    · cases hf : fetch r0 with
      | exn => exact absurd hf (hne r0 (by simp))
      | response resp0 =>
        rw [create_map_go_cons_response fetch rest m0 hf] at h
        have hne0 : shortName r0 ≠ shortName r :=
          (List.pairwise_cons.mp hpw).1 r hrr
        have hrest : ∀ x ∈ rest, fetch x ≠ FetchOutcome.exn :=
          fun x hx => hne x (by simp [hx])
        have hpwrest := (List.pairwise_cons.mp hpw).2
        by_cases hf0 : (resp0.status != 200 || !jsonOk resp0.contentType) = true
        · rw [if_pos hf0] at h
          rw [ih _ _ r resp hrr hrest hpwrest hresp hfail h,
            dget_dset_ne _ _ hne0]
        · rw [if_neg hf0] at h
          rw [ih _ _ r resp hrr hrest hpwrest hresp hfail h,
            dget_dset_ne _ _ hne0, dget_dset_ne _ _ hne0]

/-- Slice left for a repository with a successful JSON response: the
fully processed release map. -/
theorem cmg_lookup_ok (fetch : String → FetchOutcome) :
    ∀ (repos : List String) (m0 m : Mapping) (r : String) (resp : FetchResponse),
      r ∈ repos →
      (∀ x ∈ repos, fetch x ≠ FetchOutcome.exn) →
      repos.Pairwise (fun x y => shortName x ≠ shortName y) →
      fetch r = FetchOutcome.response resp →
      (resp.status != 200 || !jsonOk resp.contentType) = false →
      create_map_go fetch repos m0 = Except.ok m →
      dget m (shortName r) =
        some (processRepo ((dget m0 (shortName r)).getD []) resp.body) := by
  intro repos
  induction repos with
  | nil => intro m0 m r resp hr; simp at hr
  | cons r0 rest ih =>
    intro m0 m r resp hr hne hpw hresp hok h
    rcases List.mem_cons.mp hr with rfl | hrr
    · rw [create_map_go_cons_response fetch rest m0 hresp] at h
      rw [if_neg (by simp [hok])] at h
      have hdistinct : ∀ x ∈ rest, shortName x ≠ shortName r :=
        fun x hx => ((List.pairwise_cons.mp hpw).1 x hx).symm
      rw [cmg_preserve fetch (shortName r) rest _ m hdistinct h]
      rw [dget_dset_self]
    · cases hf : fetch r0 with
      | exn => exact absurd hf (hne r0 (by simp))
      | response resp0 =>
        rw [create_map_go_cons_response fetch rest m0 hf] at h
        have hne0 : shortName r0 ≠ shortName r :=
          (List.pairwise_cons.mp hpw).1 r hrr
        have hrest : ∀ x ∈ rest, fetch x ≠ FetchOutcome.exn :=
          fun x hx => hne x (by simp [hx])
        have hpwrest := (List.pairwise_cons.mp hpw).2
        by_cases hf0 : (resp0.status != 200 || !jsonOk resp0.contentType) = true
        · rw [if_pos hf0] at h
          rw [ih _ _ r resp hrr hrest hpwrest hresp hok h,
            dget_dset_ne _ _ hne0]
        · rw [if_neg hf0] at h
          rw [ih _ _ r resp hrr hrest hpwrest hresp hok h,
            dget_dset_ne _ _ hne0, dget_dset_ne _ _ hne0]

end ImageRouter

namespace ImageRouter

/-! ## Lemmas: untrusted assets and the classification skeleton -/

theorem isEmpty_eq_false_iff {α : Type} {l : List α} :
    l.isEmpty = false ↔ l ≠ [] := by
  cases l <;> simp

theorem applyMatch_ne_nil (cr : ClassifiedRelease)
    (gd : List (String × String)) (url : String) :
    applyMatch cr gd url ≠ [] :=
  dset_ne_nil _ _ _

theorem foldl_patterns_ne_nil (a : Asset) :
    ∀ (ps : List RePattern) (m : ClassifiedRelease), m ≠ [] →
      ps.foldl
        (fun acc p =>
          match reMatch p a.name with
          | none => acc
          | some gdict => applyMatch acc gdict a.browser_download_url) m ≠ [] := by
  intro ps
  induction ps with
  | nil => exact fun m hm => hm
  | cons p ps ih =>
    intro m hm
    simp only [List.foldl]
    rcases hr : reMatch p a.name with _ | gd
    · simp only [hr]
      exact ih m hm
    · simp only [hr]
      exact ih _ (applyMatch_ne_nil m gd a.browser_download_url)

theorem processAsset_ne_nil_of_ne (a : Asset) {cr : ClassifiedRelease}
    (h : cr ≠ []) : processAsset cr a ≠ [] :=
  foldl_patterns_ne_nil a patternList cr h

theorem processAsset_eq_of_no_match {a : Asset} (cr : ClassifiedRelease)
    (h : findFirstMatch patternList a.name = none) : processAsset cr a = cr := by
  rw [processAsset_eq_firstMatch]
  unfold firstMatchClassify
  rw [h]

theorem processAsset_ne_nil_of_match {a : Asset} (cr : ClassifiedRelease)
    {g : List (String × String)}
    (h : findFirstMatch patternList a.name = some g) : processAsset cr a ≠ [] := by
  rw [processAsset_eq_firstMatch]
  unfold firstMatchClassify
  rw [h]
  exact applyMatch_ne_nil cr g a.browser_download_url

theorem foldl_assets_ne_nil :
    ∀ (l : List Asset) (m : ClassifiedRelease), m ≠ [] →
      l.foldl processAsset m ≠ [] := by
  intro l
  induction l with
  | nil => exact fun m hm => hm
  | cons a l ih =>
    intro m hm
    simp only [List.foldl]
    exact ih _ (processAsset_ne_nil_of_ne a hm)

theorem foldl_assets_no_match :
    ∀ (l : List Asset) (m : ClassifiedRelease),
      (∀ a ∈ l, findFirstMatch patternList a.name = none) →
      l.foldl processAsset m = m := by
  intro l
  induction l with
  | nil => exact fun m _ => rfl
  | cons a l ih =>
    intro m hno
    simp only [List.foldl]
    rw [processAsset_eq_of_no_match m (hno a (by simp))]
    exact ih m (fun x hx => hno x (by simp [hx]))

/-- The classification is non-empty exactly when some asset's filename
matches one of the patterns — independently of URL trust. -/
theorem releaseInit_ne_nil_iff (assets : List Asset) :
    releaseInit assets ≠ [] ↔
      ∃ a ∈ assets, (findFirstMatch patternList a.name).isSome = true := by
  constructor
  · intro hne
    by_contra hno
    push_neg at hno
    have hall : ∀ a ∈ assets, findFirstMatch patternList a.name = none := by
      intro a ha
      have := hno a ha
      cases hm : findFirstMatch patternList a.name with
      | none => rfl
      | some g => rw [hm] at this; simp at this
    exact hne (foldl_assets_no_match assets [] hall)
  · rintro ⟨a, ha, hm⟩
    rcases hg : findFirstMatch patternList a.name with _ | g
    · rw [hg] at hm; simp at hm
    · unfold releaseInit
      clear hm
      induction assets with
      | nil => simp at ha
      | cons b rest ih =>
        rcases List.mem_cons.mp ha with rfl | hrest
        · simp only [List.foldl]
          exact foldl_assets_ne_nil rest _ (processAsset_ne_nil_of_match [] hg)
        · simp only [List.foldl]
          -- the head may or may not match; in either case continue
          by_cases hb : processAsset [] b = []
          · rw [hb]
            exact ih hrest
          · exact foldl_assets_ne_nil rest _ hb

theorem nested_empty_step (cr : ClassifiedRelease) (A V T url : String)
    (hurl : trustedUrl url = false) (hcr : EmptyVendors cr) :
    EmptyVendors (dset cr A (dset ((dget cr A).getD []) V
      (if trustedUrl url then
         dset ((dget ((dget cr A).getD []) V).getD []) T url
       else (dget ((dget cr A).getD []) V).getD []))) := by
  intro arch am ham v vm hvm
  rw [if_neg (by simp [hurl])] at ham
  by_cases hA : A = arch
  · subst hA
    rw [dget_dset_self] at ham
    injection ham with ham
    subst ham
    by_cases hV : V = v
    · subst hV
      rw [dget_dset_self] at hvm
      injection hvm with hvm
      subst hvm
      cases had : dget cr A with
      | none => simp [had, dget]
      | some ad =>
        simp only [had, Option.getD_some]
        cases hvd : dget ad V with
        | none => simp [hvd]
        | some vd =>
          simp only [hvd, Option.getD_some]
          exact hcr A ad had V vd hvd
    · rw [dget_dset_ne _ _ hV] at hvm
      cases had : dget cr A with
      | none => rw [had] at hvm; simp [dget] at hvm
      | some ad =>
        rw [had] at hvm
        simp only [Option.getD_some] at hvm
        exact hcr A ad had v vm hvm
  · rw [dget_dset_ne _ _ hA] at ham
    exact hcr arch am ham v vm hvm

theorem applyMatch_emptyVendors {cr : ClassifiedRelease}
    (gd : List (String × String)) {url : String}
    (hurl : trustedUrl url = false) (hcr : EmptyVendors cr) :
    EmptyVendors (applyMatch cr gd url) :=
  nested_empty_step cr _ _ _ url hurl hcr

theorem processAsset_emptyVendors {cr : ClassifiedRelease} {a : Asset}
    (ha : trustedUrl a.browser_download_url = false) (hcr : EmptyVendors cr) :
    EmptyVendors (processAsset cr a) := by
  unfold processAsset
  have hgen : ∀ (ps : List RePattern) (m : ClassifiedRelease), EmptyVendors m →
      EmptyVendors (ps.foldl
        (fun acc p =>
          match reMatch p a.name with
          | none => acc
          | some gdict => applyMatch acc gdict a.browser_download_url) m) := by
    intro ps
    induction ps with
    | nil => exact fun m hm => hm
    | cons p ps ih =>
      intro m hm
      simp only [List.foldl]
      rcases hr : reMatch p a.name with _ | gd
      · simpa only [hr] using ih m hm
      · simp only [hr]
        exact ih _ (applyMatch_emptyVendors gd ha hm)
  exact hgen patternList cr hcr

theorem releaseInit_emptyVendors {assets : List Asset}
    (h : ∀ a ∈ assets, trustedUrl a.browser_download_url = false) :
    EmptyVendors (releaseInit assets) := by
  unfold releaseInit
  have hgen : ∀ (l : List Asset) (m : ClassifiedRelease),
      (∀ a ∈ l, trustedUrl a.browser_download_url = false) →
      EmptyVendors m → EmptyVendors (l.foldl processAsset m) := by
    intro l
    induction l with
    | nil => exact fun m _ hm => hm
    | cons a l ih =>
      intro m hl hm
      simp only [List.foldl]
      exact ih _ (fun x hx => hl x (by simp [hx]))
        (processAsset_emptyVendors (hl a (by simp)) hm)
  apply hgen assets [] h
  intro arch am ham
  simp [dget] at ham

end ImageRouter

namespace ImageRouter

/-! ## Lemmas: the architecture and vendor keys of a matched asset -/

theorem nested_has_keys (cr : ClassifiedRelease) (A V T url : String) :
    ∃ am, dget (dset cr A (dset ((dget cr A).getD []) V
      (if trustedUrl url then
         dset ((dget ((dget cr A).getD []) V).getD []) T url
       else (dget ((dget cr A).getD []) V).getD []))) A = some am ∧
      (dget am V).isSome = true := by
  refine ⟨_, dget_dset_self _ _ _, ?_⟩
  rw [dget_dset_self]
  rfl

theorem applyMatch_has_keys (cr : ClassifiedRelease)
    (gd : List (String × String)) (url : String) :
    ∃ am, dget (applyMatch cr gd url) (archOf gd) = some am ∧
      (dget am (vendorOf gd)).isSome = true :=
  nested_has_keys cr (archOf gd) (vendorOf gd) _ url

theorem nested_keys_mono (cr : ClassifiedRelease) (A V T url : String)
    {A' V' : String}
    (h : ∃ am, dget cr A' = some am ∧ (dget am V').isSome = true) :
    ∃ am, dget (dset cr A (dset ((dget cr A).getD []) V
      (if trustedUrl url then
         dset ((dget ((dget cr A).getD []) V).getD []) T url
       else (dget ((dget cr A).getD []) V).getD []))) A' = some am ∧
      (dget am V').isSome = true := by
  obtain ⟨am, ham, hv⟩ := h
  by_cases hA : A = A'
  · subst hA
    refine ⟨_, dget_dset_self _ _ _, ?_⟩
    rw [ham, Option.getD_some]
    by_cases hV : V = V'
    · subst hV
      rw [dget_dset_self]
      rfl
    · rw [dget_dset_ne _ _ hV]
      exact hv
  · rw [dget_dset_ne _ _ hA]
    exact ⟨am, ham, hv⟩

theorem applyMatch_keys_mono {cr : ClassifiedRelease}
    (gd : List (String × String)) (url : String) {A' V' : String}
    (h : ∃ am, dget cr A' = some am ∧ (dget am V').isSome = true) :
    ∃ am, dget (applyMatch cr gd url) A' = some am ∧
      (dget am V').isSome = true :=
  nested_keys_mono cr (archOf gd) (vendorOf gd) _ url h

theorem processAsset_keys_mono (a : Asset) {cr : ClassifiedRelease}
    {A' V' : String}
    (h : ∃ am, dget cr A' = some am ∧ (dget am V').isSome = true) :
    ∃ am, dget (processAsset cr a) A' = some am ∧
      (dget am V').isSome = true := by
  unfold processAsset
  have hgen : ∀ (ps : List RePattern) (m : ClassifiedRelease),
      (∃ am, dget m A' = some am ∧ (dget am V').isSome = true) →
      ∃ am, dget (ps.foldl
        (fun acc p =>
          match reMatch p a.name with
          | none => acc
          | some gdict => applyMatch acc gdict a.browser_download_url) m) A' =
            some am ∧ (dget am V').isSome = true := by
    intro ps
    induction ps with
    | nil => exact fun m hm => hm
    | cons p ps ih =>
      intro m hm
      simp only [List.foldl]
      rcases hr : reMatch p a.name with _ | gd
      · simpa only [hr] using ih m hm
      · simp only [hr]
        exact ih _ (applyMatch_keys_mono gd a.browser_download_url hm)
  exact hgen patternList cr h

theorem foldl_assets_keys_mono {A' V' : String} :
    ∀ (l : List Asset) (m : ClassifiedRelease),
      (∃ am, dget m A' = some am ∧ (dget am V').isSome = true) →
      ∃ am, dget (l.foldl processAsset m) A' = some am ∧
        (dget am V').isSome = true := by
  intro l
  induction l with
  | nil => exact fun m hm => hm
  | cons a l ih =>
    intro m hm
    simp only [List.foldl]
    exact ih _ (processAsset_keys_mono a hm)

theorem processAsset_has_keys_of_match {a : Asset} (m : ClassifiedRelease)
    {g : List (String × String)}
    (h : findFirstMatch patternList a.name = some g) :
    ∃ am, dget (processAsset m a) (archOf g) = some am ∧
      (dget am (vendorOf g)).isSome = true := by
  rw [processAsset_eq_firstMatch]
  unfold firstMatchClassify
  rw [h]
  exact applyMatch_has_keys m g a.browser_download_url

/-- For every asset whose filename matches some pattern, the keys the
classifier derives from that asset's filename are present in the final
classification of the release (even when the asset is untrusted). -/
theorem foldl_assets_has_keys {a : Asset} {g : List (String × String)}
    (hg : findFirstMatch patternList a.name = some g) :
    ∀ (l : List Asset) (m : ClassifiedRelease), a ∈ l →
      ∃ am, dget (l.foldl processAsset m) (archOf g) = some am ∧
        (dget am (vendorOf g)).isSome = true := by
  intro l
  induction l with
  | nil => intro m ha; simp at ha
  | cons b rest ih =>
    intro m ha
    rcases List.mem_cons.mp ha with rfl | hrest
    · simp only [List.foldl]
      exact foldl_assets_keys_mono rest _ (processAsset_has_keys_of_match m hg)
    · simp only [List.foldl]
      exact ih _ hrest

theorem releaseInit_has_keys {assets : List Asset} {a : Asset}
    {g : List (String × String)} (ha : a ∈ assets)
    (hg : findFirstMatch patternList a.name = some g) :
    ∃ am, dget (releaseInit assets) (archOf g) = some am ∧
      (dget am (vendorOf g)).isSome = true :=
  foldl_assets_has_keys hg assets [] ha

end ImageRouter

namespace ImageRouter

/-! ## Claim theorems -/

/-- C1: every URL stored at any (architecture, vendor, artifact-name)
triple of a ClassifiedRelease built by the classifier starts with one
of the allowed URL prefixes, regardless of the asset's filename shape:
an asset's download URL appears as a value in the output only if it is
source-trusted. -/
theorem claim_c1_urls_trusted (assets : List Asset)
    (arch vend file : String) (am : ArchMap) (vm : VendorMap) (url : String)
    (h1 : dget (releaseInit assets) arch = some am)
    (h2 : dget am vend = some vm)
    (h3 : dget vm file = some url) :
    trustedUrl url = true :=
  releaseInit_trusted assets arch am h1 vend vm h2 file url h3

/-- Witness for C1 at a concrete trusted rootfs asset. -/
theorem claim_c1_urls_trusted_witness :
    dget (releaseInit [demoRootfsAsset]) "arm64" =
      some [("generic", [("rootfs.zip", demoUrl)])] ∧
    trustedUrl demoUrl = true :=
  ⟨by decide,
   claim_c1_urls_trusted [demoRootfsAsset] "arm64" "generic" "rootfs.zip"
     [("generic", [("rootfs.zip", demoUrl)])] [("rootfs.zip", demoUrl)] demoUrl
     (by decide) (by decide) (by decide)⟩

/-- C2: the request handler returns the stored URL as a redirect
exactly when every level of the five-segment catalog lookup resolves,
returns not-found exactly when some level is absent, and (by the
totality of `request_handler` into the two-constructor `HttpResponse`)
never lets any other outcome escape the request boundary. -/
theorem claim_c2_resolution (mapping : Mapping)
    (repository version architecture vendor file : String) :
    (∀ url, request_handler mapping repository version architecture vendor file =
        HttpResponse.httpFound url ↔
      ∃ rm am vm fm, dget mapping repository = some rm ∧
        dget rm version = some am ∧ dget am architecture = some vm ∧
        dget vm vendor = some fm ∧ dget fm file = some url) ∧
    (request_handler mapping repository version architecture vendor file =
        HttpResponse.httpNotFound ↔
      ¬ ∃ url rm am vm fm, dget mapping repository = some rm ∧
        dget rm version = some am ∧ dget am architecture = some vm ∧
        dget vm vendor = some fm ∧ dget fm file = some url) := by
  constructor
  · intro url
    rw [request_handler_found_iff]
    exact resolveChain_ok_iff mapping repository version architecture vendor file url
  · rw [request_handler_notFound_iff]
    simp only [resolveChain_ok_iff]

/-- C3: the classifier tries the three patterns in the fixed source
order and, for every filename, computes exactly the result of a
first-match-wins evaluation of that ordered list (the pattern languages
are pairwise disjoint, so the missing `break` is unobservable); an
asset matching no pattern contributes nothing. -/
theorem claim_c3_first_match_wins :
    (∀ (cr : ClassifiedRelease) (a : Asset),
      processAsset cr a = firstMatchClassify cr a) ∧
    (∀ (cr : ClassifiedRelease) (a : Asset),
      findFirstMatch patternList a.name = none → processAsset cr a = cr) :=
  ⟨processAsset_eq_firstMatch,
   fun cr _ h => processAsset_eq_of_no_match cr h⟩

/-- Witness for C3: a filename matching no pattern is ignored. -/
theorem claim_c3_first_match_wins_witness :
    findFirstMatch patternList (Asset.mk "README.md" "u").name = none ∧
    processAsset [("x", [])] (Asset.mk "README.md" "u") = [("x", [])] :=
  ⟨by decide,
   claim_c3_first_match_wins.2 [("x", [])] (Asset.mk "README.md" "u") (by decide)⟩

end ImageRouter

namespace ImageRouter

/-- C4: when a repository's fetch returns a response but with a non-200
status or a non-JSON content type (and no fetch of the cycle raises),
the cycle completes, that repository's slice of the new mapping is the
empty dict — built from scratch, the previous cycle's mapping is not an
input of `create_map_go` at all — so every resolution under it answers
404, while every successfully fetched repository (with a distinct short
name) is still processed normally. -/
theorem claim_c4_failed_fetch (repos : List String)
    (fetch : String → FetchOutcome) (r : String) (resp : FetchResponse)
    (hne : ∀ x ∈ repos, fetch x ≠ FetchOutcome.exn)
    (hpw : repos.Pairwise (fun x y => shortName x ≠ shortName y))
    (hr : r ∈ repos)
    (hresp : fetch r = FetchOutcome.response resp)
    (hfail : (resp.status != 200 || !jsonOk resp.contentType) = true) :
    ∃ m, create_map_go fetch repos [] = Except.ok m ∧
      dget m (shortName r) = some [] ∧
      (∀ version architecture vendor file,
        request_handler m (shortName r) version architecture vendor file =
          HttpResponse.httpNotFound) ∧
      (∀ r' resp', r' ∈ repos → shortName r' ≠ shortName r →
        fetch r' = FetchOutcome.response resp' →
        (resp'.status != 200 || !jsonOk resp'.contentType) = false →
        dget m (shortName r') = some (processRepo [] resp'.body)) := by
  obtain ⟨m, hm⟩ := cmg_ok fetch repos [] hne
  have hslice : dget m (shortName r) = some [] := by
    have h := cmg_lookup_failed fetch repos [] m r resp hr hne hpw hresp hfail hm
    simpa [dget] using h
  refine ⟨m, hm, hslice, ?_, ?_⟩
  · intro version architecture vendor file
    rw [request_handler_notFound_iff]
    rintro ⟨url, hok⟩
    rw [resolveChain_ok_iff] at hok
    obtain ⟨rm, am, vm, fm, h1, h2, -, -, -⟩ := hok
    rw [hslice] at h1
    injection h1 with h1
    subst h1
    simp [dget] at h2
  · intro r' resp' hr' hne' hresp' hok'
    have h := cmg_lookup_ok fetch repos [] m r' resp' hr' hne hpw hresp' hok' hm
    simpa [dget] using h

/-- Witness for C4: two repositories, the first answers HTTP 500, the
second succeeds and is still processed. -/
theorem claim_c4_failed_fetch_witness :
    ∃ m, create_map_go demoFetchC4 ["a/bad", "b/good"] [] = Except.ok m ∧
      dget m (shortName "a/bad") = some [] ∧
      (∀ version architecture vendor file,
        request_handler m (shortName "a/bad") version architecture vendor file =
          HttpResponse.httpNotFound) ∧
      (∀ r' resp', r' ∈ ["a/bad", "b/good"] →
        shortName r' ≠ shortName "a/bad" →
        demoFetchC4 r' = FetchOutcome.response resp' →
        (resp'.status != 200 || !jsonOk resp'.contentType) = false →
        dget m (shortName r') = some (processRepo [] resp'.body)) :=
  claim_c4_failed_fetch ["a/bad", "b/good"] demoFetchC4 "a/bad"
    ⟨500, "application/json", []⟩ (by decide) (by decide) (by decide)
    (by decide) (by decide)

/-- C7 counterexample: with a network error (a raised exception, which
nothing in the source catches) on the first repository's fetch,
`create_map` fails outright — the second repository is never processed
in that cycle even though its fetch would have succeeded with data, so
a fetch failure of the "network error" kind is fatal to the cycle,
contradicting the claim. -/
theorem claim_c7_counterexample :
    cexFetch7 "a/one" = FetchOutcome.exn ∧
    cexFetch7 "b/two" ≠ FetchOutcome.exn ∧
    create_map_go cexFetch7 ["a/one", "b/two"] [] = Except.error () ∧
    create_map_go cexFetch7 ["b/two"] [] =
      Except.ok [("two",
        [("bullseye", releaseInit [demoRootfsAsset]),
         ("droidian-stable-latest", releaseInit [demoRootfsAsset])])] :=
  ⟨by decide, by decide, by rfl, by rfl⟩

/-- C7 (amended): a fetch failure that yields a response — non-200
status or wrong content type — is never fatal: the cycle always
completes when no fetch raises, whatever the statuses and content
types; but a raised network error makes the whole cycle fail. -/
theorem claim_c7_amended :
    (∀ (repos : List String) (fetch : String → FetchOutcome) (m0 : Mapping),
      (∀ r ∈ repos, fetch r ≠ FetchOutcome.exn) →
      ∃ m, create_map_go fetch repos m0 = Except.ok m) ∧
    (∀ (repos : List String) (fetch : String → FetchOutcome) (m0 : Mapping),
      (∃ r ∈ repos, fetch r = FetchOutcome.exn) →
      create_map_go fetch repos m0 = Except.error ()) :=
  ⟨fun repos fetch m0 h => cmg_ok fetch repos m0 h,
   fun repos fetch m0 h => cmg_exn fetch repos m0 h⟩

/-- Witness for the amended C7: a cycle in which no fetch raises
completes successfully. -/
theorem claim_c7_amended_witness :
    ∃ m, create_map_go cexFetch7 ["b/two"] [] = Except.ok m :=
  claim_c7_amended.1 ["b/two"] cexFetch7 [] (by decide)

end ImageRouter

namespace ImageRouter

/-- C5 counterexample: in `cexRelsC5` the first release in API order
whose slug (`stable-one`) does not contain `"nightly"` classifies to
the empty dict, so the code skips it entirely; the alias ends up
pointing at the second release's classification, not at the first
non-nightly release's (empty) classification as the claim demands. -/
theorem claim_c5_counterexample :
    containsSub "nightly".data (slugify "stable.one").data = false ∧
    dget (processRepo [] cexRelsC5) "droidian-stable-latest" =
      some (releaseInit [demoRootfsAsset]) ∧
    releaseInit [demoRootfsAsset] ≠ releaseInit ([] : List Asset) := by
  refine ⟨by decide, by rfl, by decide⟩

/-- C5 (amended): the `droidian-stable-latest` entry maps to the
release map's entry for the slug of the first release (in API response
order) whose slug does not contain `"nightly"` AND whose classification
is non-empty — releases with an empty classification are skipped before
the stable-candidate check; if no such release exists, no alias entry
is added and the map is left exactly as the release loop built it. -/
theorem claim_c5_stable_alias (rels : List ReleaseData) :
    (∀ sl, firstStableSlug rels = some sl →
      dget (processRepo [] rels) "droidian-stable-latest" =
        some ((dget ((rels.foldl relStep (([] : RepoMap), none)).1) sl).getD [])) ∧
    (firstStableSlug rels = none →
      processRepo [] rels = (rels.foldl relStep (([] : RepoMap), none)).1) := by
  constructor
  · intro sl hsl
    unfold processRepo
    simp only [relLoop_latest, hsl]
    rw [dget_dset_self]
  · intro hnone
    unfold processRepo
    simp only [relLoop_latest, hnone]

/-- Witness for the amended C5, on the spec's own example slugs
`[nightly-2, stable-1, nightly-3]` (all classifying non-empty): the
alias points at `stable-1`. -/
theorem claim_c5_stable_alias_witness :
    firstStableSlug demoRelsStable = some "stable-1" ∧
    dget (processRepo [] demoRelsStable) "droidian-stable-latest" =
      some ((dget ((demoRelsStable.foldl relStep
        (([] : RepoMap), none)).1) "stable-1").getD []) :=
  ⟨by decide, (claim_c5_stable_alias demoRelsStable).1 "stable-1" (by decide)⟩

/-- C6 counterexample: a release whose classification is empty (here:
no assets at all) is not inserted into the release map — the claim's
"including when that output is empty" fails on the code, which guards
the insertion with `if rel:`. -/
theorem claim_c6_counterexample :
    releaseInit ([] : List Asset) = [] ∧
    dget (processRepo [] [(⟨"bullseye", []⟩ : ReleaseData)]) "bullseye" =
      none :=
  ⟨rfl, by rfl⟩

/-- C6 (amended): the release loop leaves an entry under a slug exactly
when some release with that slug classifies non-empty, and the entry's
value is the classification of the last such release in API order;
releases whose classification is empty are skipped (not inserted as
empty entries). -/
theorem claim_c6_release_entries (rels : List ReleaseData) (sl : String) :
    dget ((rels.foldl relStep (([] : RepoMap), none)).1) sl =
      (lastWithSlug sl rels).map (fun r => releaseInit r.assets) := by
  rw [relLoop_lookup]
  cases h : lastWithSlug sl rels <;> simp [h, dget]

end ImageRouter

namespace ImageRouter

/-- C9: for a release all of whose assets have untrusted download URLs,
(i) the classification is non-empty exactly when some filename matches
a pattern; (ii) each matching asset's architecture and vendor keys are
present in the classification even though the asset is untrusted;
(iii) every vendor-level dict is empty, so (iv) no (architecture,
vendor, artifact) lookup can produce a URL; and (v) such a non-empty
classification passes the `if rel:` guard and is published in the
release map under the release's slug. -/
theorem claim_c9_untrusted_skeleton (assets : List Asset)
    (huntrusted : ∀ a ∈ assets, trustedUrl a.browser_download_url = false) :
    (releaseInit assets ≠ [] ↔
      ∃ a ∈ assets, (findFirstMatch patternList a.name).isSome = true) ∧
    (∀ a ∈ assets, ∀ g, findFirstMatch patternList a.name = some g →
      ∃ am, dget (releaseInit assets) (archOf g) = some am ∧
        (dget am (vendorOf g)).isSome = true) ∧
    (∀ arch am, dget (releaseInit assets) arch = some am →
      ∀ v vm, dget am v = some vm → vm = []) ∧
    (∀ arch am, dget (releaseInit assets) arch = some am →
      ∀ v vm, dget am v = some vm → ∀ f, dget vm f = none) ∧
    (∀ (m0 : RepoMap) (lo : Option String) (tag : String),
      releaseInit assets ≠ [] →
      dget ((relStep (m0, lo) ⟨tag, assets⟩).1) (slugify tag) =
        some (releaseInit assets)) := by
  have hev := releaseInit_emptyVendors huntrusted
  refine ⟨releaseInit_ne_nil_iff assets, ?_, hev, ?_, ?_⟩
  · intro a ha g hg
    exact releaseInit_has_keys ha hg
  · intro arch am h1 v vm h2 f
    rw [hev arch am h1 v vm h2]
    rfl
  · intro m0 lo tag hne
    have hemp : (releaseInit assets).isEmpty = false := isEmpty_eq_false_iff.mpr hne
    unfold relStep
    rw [if_neg (by simp [hemp])]
    exact dget_dset_self _ _ _

/-- Witness for C9 at a single untrusted rootfs-pattern asset. -/
theorem claim_c9_untrusted_skeleton_witness :
    (∀ a ∈ [demoUntrustedAsset], trustedUrl a.browser_download_url = false) ∧
    releaseInit [demoUntrustedAsset] ≠ [] ∧
    dget ((relStep (([] : RepoMap), (none : Option String))
      ⟨"bullseye", [demoUntrustedAsset]⟩).1) "bullseye" =
        some (releaseInit [demoUntrustedAsset]) := by
  have h := claim_c9_untrusted_skeleton [demoUntrustedAsset] (by decide)
  have hne : releaseInit [demoUntrustedAsset] ≠ [] :=
    h.1.mpr ⟨demoUntrustedAsset, by simp, by decide⟩
  have h5 := h.2.2.2.2 [] none "bullseye" hne
  have hslug : slugify "bullseye" = "bullseye" := by decide
  rw [hslug] at h5
  exact ⟨by decide, hne, h5⟩

/-- C10: the stable alias is assigned only after the whole release loop
has run: the final map agrees with the loop's map on every other key,
and the alias key holds exactly the loop map's value for the stable
candidate's slug — so the alias unconditionally overwrites any release
whose own slug happens to be `droidian-stable-latest`, and aliases the
same ClassifiedRelease value as the candidate's entry. -/
theorem claim_c10_alias_after_loop (rels : List ReleaseData) (sl : String)
    (h : (rels.foldl relStep (([] : RepoMap), none)).2 = some sl) :
    dget (processRepo [] rels) "droidian-stable-latest" =
      some ((dget ((rels.foldl relStep (([] : RepoMap), none)).1) sl).getD []) ∧
    (∀ k, k ≠ "droidian-stable-latest" →
      dget (processRepo [] rels) k =
        dget ((rels.foldl relStep (([] : RepoMap), none)).1) k) := by
  constructor
  · unfold processRepo
    simp only [h]
    rw [dget_dset_self]
  · intro k hk
    unfold processRepo
    simp only [h]
    rw [dget_dset_ne _ _ (Ne.symm hk)]

/-- Witness for C10: a release whose own slug is exactly
`droidian-stable-latest` is overwritten by the alias to the earlier
stable candidate. -/
theorem claim_c10_alias_after_loop_witness :
    (demoRelsC10.foldl relStep (([] : RepoMap), none)).2 = some "stable-one" ∧
    dget (processRepo [] demoRelsC10) "droidian-stable-latest" =
      some ((dget ((demoRelsC10.foldl relStep
        (([] : RepoMap), none)).1) "stable-one").getD []) ∧
    dget ((demoRelsC10.foldl relStep (([] : RepoMap), none)).1)
      "droidian-stable-latest" = some (releaseInit [demoRootfsAsset2]) ∧
    releaseInit [demoRootfsAsset2] ≠ releaseInit [demoRootfsAsset] :=
  ⟨by decide,
   (claim_c10_alias_after_loop demoRelsC10 "stable-one" (by decide)).1,
   by rfl, by decide⟩

end ImageRouter
